import Mathlib

/-!
Verification of the lastbench repository's rate limiter (src/unnamed/part_015)
and file validator (src/src/lib/fileValidation.ts) against its specification.

JavaScript strings are modelled as `List Char` where character-level
processing occurs (filenames, header values, client identifiers) and as
`String` where only equality/membership is used (MIME types).  Timestamps
(`Date.now()` milliseconds) are modelled as `Int`.
-/

namespace Lastbench

/-! ## Rate limiter (src/unnamed/part_015) -/

/-- Structure `RateLimitConfig` from part_015.  In the source the fields are optional
but every use site asserts them present (`config.interval!`,
`config.maxRequests!`), so the embedding takes them as present.
`uniqueTokenPerInterval` is a sizing hint, unused by `isRateLimited`. -/
structure RateLimitConfig where
  uniqueTokenPerInterval : Nat
  interval : Int
  maxRequests : Nat
deriving DecidableEq, Repr

/-- Preset `RATE_LIMIT_CONFIGS.auth`: 5 requests / 60 s. -/
def RATE_LIMIT_CONFIGS_auth : RateLimitConfig := ⟨500, 60 * 1000, 5⟩

/-- Preset `RATE_LIMIT_CONFIGS.upload`: 10 requests / 60 s. -/
def RATE_LIMIT_CONFIGS_upload : RateLimitConfig := ⟨1000, 60 * 1000, 10⟩

/-- Preset `RATE_LIMIT_CONFIGS.delete`: 20 requests / 60 s. -/
def RATE_LIMIT_CONFIGS_delete : RateLimitConfig := ⟨1000, 60 * 1000, 20⟩

/-- Preset `RATE_LIMIT_CONFIGS.general`: 100 requests / 60 s. -/
def RATE_LIMIT_CONFIGS_general : RateLimitConfig := ⟨2000, 60 * 1000, 100⟩

/-- Preset `RATE_LIMIT_CONFIGS.test`: 50 requests / 60 s. -/
def RATE_LIMIT_CONFIGS_test : RateLimitConfig := ⟨1000, 60 * 1000, 50⟩

/-- The `tokenCache` maps client identifiers to the timestamps of their
recent requests.  The source uses an `lru-cache` (external library,
capacity 10000, 5-minute idle TTL); the claims under proof involve far
fewer distinct keys than the capacity, so the store is modelled as an
association list with `get`/`set`. -/
def Cache : Type := List (List Char × List Int)

/-- Lookup `tokenCache.get identifier`. -/
def cacheGet : Cache → List Char → Option (List Int)
  | [], _ => none
  | (k, v) :: rest, key => if k = key then some v else cacheGet rest key

/-- Update `tokenCache.set identifier value`: replace the binding if present,
otherwise add it. -/
def cacheSet : Cache → List Char → List Int → Cache
  | [], key, v => [(key, v)]
  | (k, w) :: rest, key, v =>
      if k = key then (key, v) :: rest else (k, w) :: cacheSet rest key v

/-- Return value of `isRateLimited`. -/
structure RateLimitResult where
  isLimited : Bool
  remaining : Int
  resetTime : Int
deriving DecidableEq, Repr

/-- Function `isRateLimited(identifier, config)` from part_015, with the current
time `now` and the cache passed explicitly.  Returns the result together
with the cache after the call.

Source steps: `windowStart = now - config.interval!`; look up the existing
requests (`|| []`); keep `timestamp > windowStart`; `isLimited` when the
kept count reaches `config.maxRequests!`; `remaining = Math.max(0,
maxRequests - validRequests.length)`; `resetTime = now + interval`; only
when not limited, push `now` and store the list back. -/
def isRateLimited (identifier : List Char) (config : RateLimitConfig)
    (now : Int) (cache : Cache) : RateLimitResult × Cache :=
  let windowStart := now - config.interval
  let existingRequests := (cacheGet cache identifier).getD []
  let validRequests := existingRequests.filter (fun timestamp => windowStart < timestamp)
  let isLimited : Bool := decide (config.maxRequests ≤ validRequests.length)
  let remaining : Int := max 0 ((config.maxRequests : Int) - (validRequests.length : Int))
  let resetTime := now + config.interval
  if isLimited then
    (⟨true, remaining, resetTime⟩, cache)
  else
    (⟨false, remaining, resetTime⟩, cacheSet cache identifier (validRequests ++ [now]))

/-- Iterate `isRateLimited` for one identifier at the given call times,
threading the cache (each call is one invocation of the check). -/
def runCalls (identifier : List Char) (config : RateLimitConfig)
    (times : List Int) (cache : Cache) : Cache :=
  times.foldl (fun c t => (isRateLimited identifier config t c).2) cache

theorem cacheGet_set_same (c : Cache) (k : List Char) (v : List Int) :
    cacheGet (cacheSet c k v) k = some v := by
  induction c with
  | nil => simp [cacheSet, cacheGet]
  | cons p rest ih =>
      obtain ⟨k', v'⟩ := p
      by_cases h : k' = k
      · simp [cacheSet, cacheGet, h]
      · simp [cacheSet, cacheGet, h, ih]

theorem cacheGet_set_ne (c : Cache) (k k' : List Char) (v : List Int)
    (h : k ≠ k') : cacheGet (cacheSet c k v) k' = cacheGet c k' := by
  induction c with
  | nil => simp [cacheSet, cacheGet, h]
  | cons p rest ih =>
      obtain ⟨k₀, v₀⟩ := p
      by_cases h₀ : k₀ = k
      · subst h₀
        simp [cacheSet, cacheGet, h]
      · simp [cacheSet, cacheGet, h₀, ih]

/-- The local `validRequests` of `isRateLimited`: the stored timestamps of
`identifier` still inside the window ending at `now`. -/
def validRequestsOf (identifier : List Char) (config : RateLimitConfig)
    (now : Int) (cache : Cache) : List Int :=
  ((cacheGet cache identifier).getD []).filter
    (fun timestamp => decide (now - config.interval < timestamp))

theorem runCalls_nil (identifier : List Char) (config : RateLimitConfig)
    (cache : Cache) : runCalls identifier config [] cache = cache := rfl

theorem runCalls_cons (identifier : List Char) (config : RateLimitConfig)
    (t : Int) (ts : List Int) (cache : Cache) :
    runCalls identifier config (t :: ts) cache
      = runCalls identifier config ts ((isRateLimited identifier config t cache).2) := rfl

theorem isRateLimited_fst (identifier : List Char) (config : RateLimitConfig)
    (now : Int) (cache : Cache) :
    (isRateLimited identifier config now cache).1
      = ⟨decide (config.maxRequests ≤ (validRequestsOf identifier config now cache).length),
         max 0 ((config.maxRequests : Int) - ((validRequestsOf identifier config now cache).length : Int)),
         now + config.interval⟩ := by
  by_cases h : config.maxRequests ≤ (validRequestsOf identifier config now cache).length
  · rw [validRequestsOf] at h
    simp [isRateLimited, validRequestsOf, h]
  · rw [validRequestsOf] at h
    simp [isRateLimited, validRequestsOf, h]

theorem isRateLimited_snd (identifier : List Char) (config : RateLimitConfig)
    (now : Int) (cache : Cache) :
    (isRateLimited identifier config now cache).2
      = if config.maxRequests ≤ (validRequestsOf identifier config now cache).length then cache
        else cacheSet cache identifier (validRequestsOf identifier config now cache ++ [now]) := by
  by_cases h : config.maxRequests ≤ (validRequestsOf identifier config now cache).length
  · rw [validRequestsOf] at h
    simp [isRateLimited, validRequestsOf, h]
  · rw [validRequestsOf] at h
    simp [isRateLimited, validRequestsOf, h]

theorem isRateLimited_accepted_eq (identifier : List Char) (config : RateLimitConfig)
    (now : Int) (cache : Cache) (acc : List Int)
    (hacc : (cacheGet cache identifier).getD [] = acc)
    (hwin : ∀ x ∈ acc, now - config.interval < x)
    (hlt : acc.length < config.maxRequests) :
    isRateLimited identifier config now cache
      = (⟨false, max 0 ((config.maxRequests : Int) - (acc.length : Int)), now + config.interval⟩,
         cacheSet cache identifier (acc ++ [now])) := by
  have hfilter : acc.filter (fun timestamp => decide (now - config.interval < timestamp)) = acc :=
    List.filter_eq_self.mpr (fun a ha => by simpa using hwin a ha)
  have hnot : ¬ (config.maxRequests ≤ acc.length) := Nat.not_le.mpr hlt
  simp [isRateLimited, hacc, hfilter, hnot]

/-- After a run of accepted calls whose times all lie in the window
`(tf - interval, tf]`, the stored sequence for the identifier is the prior
contents followed by the call times. -/
theorem runCalls_stored (identifier : List Char) (config : RateLimitConfig) (tf : Int) :
    ∀ (times : List Int) (cache : Cache) (acc : List Int),
      (cacheGet cache identifier).getD [] = acc →
      acc.length + times.length ≤ config.maxRequests →
      (∀ x ∈ acc, tf - config.interval < x) →
      (∀ x ∈ times, tf - config.interval < x ∧ x ≤ tf) →
      (cacheGet (runCalls identifier config times cache) identifier).getD [] = acc ++ times := by
  intro times
  induction times with
  | nil =>
      intro cache acc hacc _ _ _
      simpa [runCalls] using hacc
  | cons t ts ih =>
      intro cache acc hacc hlen haccwin hwin
      obtain ⟨hwt₁, hwt₂⟩ := hwin t (List.mem_cons_self t ts)
      have haccwin' : ∀ x ∈ acc, t - config.interval < x := fun x hx =>
        lt_of_le_of_lt (sub_le_sub_right hwt₂ _) (haccwin x hx)
      have hlt : acc.length < config.maxRequests := by
        simp only [List.length_cons] at hlen; omega
      have hstep := isRateLimited_accepted_eq identifier config t cache acc hacc haccwin' hlt
      rw [runCalls_cons, hstep]
      have hacc' : (cacheGet (cacheSet cache identifier (acc ++ [t])) identifier).getD []
          = acc ++ [t] := by rw [cacheGet_set_same]; rfl
      have hwin' : ∀ x ∈ acc ++ [t], tf - config.interval < x := by
        intro x hx
        rcases List.mem_append.mp hx with hx | hx
        · exact haccwin x hx
        · rcases List.mem_singleton.mp hx with rfl
          exact hwt₁
      have hlen' : acc.length + (ts.length + 1) ≤ config.maxRequests := by
        simpa using hlen
      have := ih (cacheSet cache identifier (acc ++ [t])) (acc ++ [t]) hacc'
        (by simp only [List.length_append, List.length_singleton]; omega)
        hwin' (fun x hx => hwin x (List.mem_cons_of_mem _ hx))
      simpa [List.append_assoc] using this

theorem runCalls_cacheGet_other (id₁ id₂ : List Char) (h : id₁ ≠ id₂)
    (config : RateLimitConfig) :
    ∀ (times : List Int) (cache : Cache),
      cacheGet (runCalls id₁ config times cache) id₂ = cacheGet cache id₂ := by
  intro times
  induction times with
  | nil => intro cache; rfl
  | cons t ts ih =>
      intro cache
      rw [runCalls_cons, ih, isRateLimited_snd]
      split
      · rfl
      · exact cacheGet_set_ne cache id₁ id₂ _ h

/-- C1: with interval > 0 and maxRequests ≥ 1, starting from a fresh
identifier, `maxRequests` calls at times inside the window ending at `tf`
are each accepted (non-limited), and the next call at `tf` (inside the
same window) returns `isLimited = true`. -/
theorem rateLimiter_limits_after_maxRequests (config : RateLimitConfig)
    (identifier : List Char) (times : List Int) (tf : Int) (cache : Cache)
    (_hpos : 0 < config.interval) (_hone : 1 ≤ config.maxRequests)
    (hfresh : cacheGet cache identifier = none)
    (hlen : times.length = config.maxRequests)
    (hwin : ∀ x ∈ times, tf - config.interval < x ∧ x ≤ tf) :
    (∀ k (hk : k < times.length),
       (isRateLimited identifier config (times.get ⟨k, hk⟩)
         (runCalls identifier config (times.take k) cache)).1.isLimited = false)
    ∧ (isRateLimited identifier config tf
         (runCalls identifier config times cache)).1.isLimited = true := by
  have hacc0 : (cacheGet cache identifier).getD [] = [] := by rw [hfresh]; rfl
  constructor
  · intro k hk
    have hstored := runCalls_stored identifier config tf (times.take k) cache []
      hacc0 (by simp only [List.length_nil, List.length_take]; omega) (by intro x hx; cases hx)
      (fun x hx => hwin x (List.take_subset _ _ hx))
    have htk := hwin (times.get ⟨k, hk⟩) (List.get_mem times k hk)
    have hstep := isRateLimited_accepted_eq identifier config (times.get ⟨k, hk⟩)
      (runCalls identifier config (times.take k) cache) (times.take k)
      (by simpa using hstored)
      (fun x hx => lt_of_le_of_lt (sub_le_sub_right htk.2 _)
        (hwin x (List.take_subset _ _ hx)).1)
      (by rw [List.length_take]; omega)
    rw [hstep]
  · have hstored : (cacheGet (runCalls identifier config times cache) identifier).getD [] = times := by
      simpa using runCalls_stored identifier config tf times cache [] hacc0
        (by simp only [List.length_nil]; omega) (by intro x hx; cases hx) hwin
    have hfilter : times.filter (fun timestamp => decide (tf - config.interval < timestamp)) = times :=
      List.filter_eq_self.mpr (fun a ha => by simpa using (hwin a ha).1)
    rw [isRateLimited_fst]
    simp only [validRequestsOf, hstored, hfilter, hlen]
    simp

/-- C7: the `remaining` value always lies in `[0, maxRequests]`, and after an
accepted call, the next call for the same identifier whose window still
contains every stored timestamp sees `remaining` exactly one lower. -/
theorem rateLimiter_remaining_bounds_and_decrement
    (config : RateLimitConfig) (identifier : List Char)
    (_hpos : 0 < config.interval) (_hone : 1 ≤ config.maxRequests) :
    (∀ (now : Int) (cache : Cache),
        0 ≤ (isRateLimited identifier config now cache).1.remaining ∧
        (isRateLimited identifier config now cache).1.remaining ≤ (config.maxRequests : Int))
    ∧ (∀ (t₁ t₂ : Int) (cache : Cache),
        (isRateLimited identifier config t₁ cache).1.isLimited = false →
        (∀ x ∈ (cacheGet (isRateLimited identifier config t₁ cache).2 identifier).getD [],
            t₂ - config.interval < x) →
        (isRateLimited identifier config t₂
            (isRateLimited identifier config t₁ cache).2).1.remaining
          = (isRateLimited identifier config t₁ cache).1.remaining - 1) := by
  constructor
  · intro now cache
    rw [isRateLimited_fst]
    refine ⟨le_max_left _ _, max_le (by positivity) ?_⟩
    exact sub_le_self _ (by positivity)
  · intro t₁ t₂ cache hacc1 hwin2
    have hfst₁ := isRateLimited_fst identifier config t₁ cache
    rw [hfst₁] at hacc1
    have hnot : ¬ (config.maxRequests ≤ (validRequestsOf identifier config t₁ cache).length) := by
      simpa using hacc1
    have hltn : (validRequestsOf identifier config t₁ cache).length < config.maxRequests :=
      Nat.not_le.mp hnot
    have hsnd₁ : (isRateLimited identifier config t₁ cache).2
        = cacheSet cache identifier (validRequestsOf identifier config t₁ cache ++ [t₁]) := by
      rw [isRateLimited_snd, if_neg hnot]
    have hget2 : (cacheGet ((isRateLimited identifier config t₁ cache).2) identifier).getD []
        = validRequestsOf identifier config t₁ cache ++ [t₁] := by
      rw [hsnd₁, cacheGet_set_same]; rfl
    have hwin2' : ∀ x ∈ validRequestsOf identifier config t₁ cache ++ [t₁],
        t₂ - config.interval < x := by
      intro x hx
      exact hwin2 x (by rw [hget2]; exact hx)
    have hL₂ : validRequestsOf identifier config t₂ ((isRateLimited identifier config t₁ cache).2)
        = validRequestsOf identifier config t₁ cache ++ [t₁] := by
      show ((cacheGet ((isRateLimited identifier config t₁ cache).2) identifier).getD []).filter
          (fun timestamp => decide (t₂ - config.interval < timestamp))
        = validRequestsOf identifier config t₁ cache ++ [t₁]
      rw [hget2]
      exact List.filter_eq_self.mpr (fun a ha => by simpa using hwin2' a ha)
    rw [isRateLimited_fst identifier config t₂, hL₂, hfst₁]
    simp only [List.length_append, List.length_singleton]
    have h0 : (0:Int) ≤ (config.maxRequests : Int)
        - ((validRequestsOf identifier config t₁ cache).length : Int) := by
      have := hltn; omega
    have h1 : (0:Int) ≤ (config.maxRequests : Int)
        - (((validRequestsOf identifier config t₁ cache).length + 1 : Nat) : Int) := by
      have := hltn; push_cast; omega
    rw [max_eq_right h0, max_eq_right h1]
    push_cast
    ring

/-- C8: when a call comes back limited, the cache is returned unchanged:
nothing is appended for the identifier and no other entry is touched. -/
theorem rateLimiter_limited_call_leaves_cache_unchanged
    (identifier : List Char) (config : RateLimitConfig) (now : Int) (cache : Cache)
    (h : (isRateLimited identifier config now cache).1.isLimited = true) :
    (isRateLimited identifier config now cache).2 = cache := by
  rw [isRateLimited_fst] at h
  have hle : config.maxRequests ≤ (validRequestsOf identifier config now cache).length := by
    simpa using h
  rw [isRateLimited_snd, if_pos hle]

/-- C9: calls made for one identifier never change the result (decision,
remaining count, reset time) observed by a different identifier. -/
theorem rateLimiter_identifiers_independent
    (id₁ id₂ : List Char) (h : id₁ ≠ id₂)
    (config₁ config₂ : RateLimitConfig) (times : List Int)
    (cache : Cache) (t : Int) :
    (isRateLimited id₂ config₂ t (runCalls id₁ config₁ times cache)).1
      = (isRateLimited id₂ config₂ t cache).1 := by
  rw [isRateLimited_fst, isRateLimited_fst]
  unfold validRequestsOf
  rw [runCalls_cacheGet_other id₁ id₂ h config₁ times cache]

theorem rateLimiter_limits_after_maxRequests_witness :
    (isRateLimited ['a'] ⟨500, 1000, 2⟩ 30
      (runCalls ['a'] ⟨500, 1000, 2⟩ [10, 20] [])).1.isLimited = true :=
  (rateLimiter_limits_after_maxRequests ⟨500, 1000, 2⟩ ['a'] [10, 20] 30 []
    (by decide) (by decide) rfl rfl (by decide)).2

theorem rateLimiter_remaining_bounds_and_decrement_witness :
    (isRateLimited ['b'] ⟨1, 1000, 2⟩ 1 ((isRateLimited ['b'] ⟨1, 1000, 2⟩ 0 []).2)).1.remaining
      = (isRateLimited ['b'] ⟨1, 1000, 2⟩ 0 ([] : Cache)).1.remaining - 1 :=
  (rateLimiter_remaining_bounds_and_decrement ⟨1, 1000, 2⟩ ['b']
    (by decide) (by decide)).2 0 1 [] (by decide) (by decide)

theorem rateLimiter_limited_call_leaves_cache_unchanged_witness :
    (isRateLimited ['k'] ⟨1, 100, 1⟩ 10 [(['k'], [5])]).2 = [(['k'], [5])] :=
  rateLimiter_limited_call_leaves_cache_unchanged ['k'] ⟨1, 100, 1⟩ 10 [(['k'], [5])]
    (by decide)

/-! ## File validator (src/src/lib/fileValidation.ts)

File contents (`Buffer`) are modelled as `List Nat` (byte values);
filenames as `List Char`; MIME types as `String`.  The fallible
`file.arrayBuffer()` read is modelled as an `Except` field of the file. -/

/-- Structure `FileValidationConfig` from fileValidation.ts. -/
structure FileValidationConfig where
  maxSizeBytes : Nat
  allowedMimeTypes : List String
  allowedExtensions : List (List Char)
  maxFilenameLength : Nat
deriving DecidableEq, Repr

/-- Default config `STUDY_MATERIAL_VALIDATION`. -/
def STUDY_MATERIAL_VALIDATION : FileValidationConfig where
  maxSizeBytes := 100 * 1024 * 1024
  allowedMimeTypes :=
    ["application/pdf",
     "application/vnd.openxmlformats-officedocument.wordprocessingml.document",
     "application/msword",
     "application/vnd.openxmlformats-officedocument.presentationml.presentation",
     "application/vnd.ms-powerpoint",
     "application/vnd.openxmlformats-officedocument.spreadsheetml.sheet",
     "application/vnd.ms-excel",
     "text/plain", "image/jpeg", "image/jpg", "image/png", "image/gif", "image/webp"]
  allowedExtensions :=
    [".pdf".toList, ".docx".toList, ".doc".toList, ".pptx".toList, ".ppt".toList,
     ".xlsx".toList, ".xls".toList, ".txt".toList, ".jpg".toList, ".jpeg".toList,
     ".png".toList, ".gif".toList, ".webp".toList]
  maxFilenameLength := 255

/-- Signatures `MAGIC_BYTES['application/pdf']` (`%PDF`). -/
def MAGIC_BYTES_pdf : List (List Nat) := [[0x25, 0x50, 0x44, 0x46]]

/-- Signatures `MAGIC_BYTES['image/jpeg']`. -/
def MAGIC_BYTES_jpeg : List (List Nat) := [[0xFF, 0xD8, 0xFF]]

/-- Signatures `MAGIC_BYTES['image/png']`. -/
def MAGIC_BYTES_png : List (List Nat) := [[0x89, 0x50, 0x4E, 0x47, 0x0D, 0x0A, 0x1A, 0x0A]]

/-- Signatures `MAGIC_BYTES['image/gif']` (GIF87a, GIF89a). -/
def MAGIC_BYTES_gif : List (List Nat) :=
  [[0x47, 0x49, 0x46, 0x38, 0x37, 0x61], [0x47, 0x49, 0x46, 0x38, 0x39, 0x61]]

/-- Signatures `MAGIC_BYTES['image/webp']` (RIFF....WEBP). -/
def MAGIC_BYTES_webp : List (List Nat) :=
  [[0x52, 0x49, 0x46, 0x46, 0x00, 0x00, 0x00, 0x00, 0x57, 0x45, 0x42, 0x50]]

/-- Signatures `MAGIC_BYTES['text/plain']` (UTF-8 BOM, UTF-16 LE, UTF-16 BE). -/
def MAGIC_BYTES_text : List (List Nat) := [[0xEF, 0xBB, 0xBF], [0xFF, 0xFE], [0xFE, 0xFF]]

/-- Signatures `OFFICE_MAGIC_BYTES` (ZIP container headers). -/
def OFFICE_MAGIC_BYTES : List (List Nat) :=
  [[0x50, 0x4B, 0x03, 0x04], [0x50, 0x4B, 0x05, 0x06], [0x50, 0x4B, 0x07, 0x08]]

/-- Function `hasMagicBytes(buffer, magicBytes)`: some signature matches.
The source checks `buffer.length >= bytes.length` and then compares
`buffer[index] === byte` at every index of the signature, which is exactly
the prefix test. -/
def hasMagicBytes (buffer : List Nat) (magicBytes : List (List Nat)) : Bool :=
  magicBytes.any (fun bytes => bytes.isPrefixOf buffer)

/-- Function `detectFileTypeFromMagicBytes(buffer)`: fixed priority order
PDF, JPEG, PNG, GIF, WEBP, text, Office/ZIP; the ZIP bucket hard-codes the
`.docx` MIME type. -/
def detectFileTypeFromMagicBytes (buffer : List Nat) : Option String :=
  if hasMagicBytes buffer MAGIC_BYTES_pdf then some "application/pdf"
  else if hasMagicBytes buffer MAGIC_BYTES_jpeg then some "image/jpeg"
  else if hasMagicBytes buffer MAGIC_BYTES_png then some "image/png"
  else if hasMagicBytes buffer MAGIC_BYTES_gif then some "image/gif"
  else if hasMagicBytes buffer MAGIC_BYTES_webp then some "image/webp"
  else if hasMagicBytes buffer MAGIC_BYTES_text then some "text/plain"
  else if hasMagicBytes buffer OFFICE_MAGIC_BYTES then
    some "application/vnd.openxmlformats-officedocument.wordprocessingml.document"
  else none

/-- Model of `filename.toLowerCase().substring(filename.lastIndexOf('.'))`
used by `validateFileExtension`: the suffix starting at the last dot (dot
included); with no dot, `lastIndexOf` gives -1, which `substring` clamps
to 0, so the whole string is returned.  In both terminal cases of the
recursion the result is the current remainder. -/
def extFrom : List Char → List Char
  | [] => []
  | c :: rest => if '.' ∈ rest then extFrom rest else c :: rest

/-- Function `validateFileExtension(filename, allowedExtensions)`. -/
def validateFileExtension (filename : List Char) (allowedExtensions : List (List Char)) : Bool :=
  decide (extFrom (filename.map Char.toLower) ∈ allowedExtensions)

/-- A `File` as consumed by `validateFile`: its `size`, `name`, declared
MIME `type`, and the result of `await file.arrayBuffer()` (an exception
during the read is the `Except.error` case). -/
structure JsFile where
  size : Nat
  name : List Char
  type : String
  arrayBuffer : Except String (List Nat)
deriving Repr

/-- Failure cases of `validateFile`, each carrying the data its message
interpolates:
`sizeExceeded`: "File size (...MB) exceeds maximum allowed size (...MB)";
`filenameTooLong`: "Filename is too long (n characters). Maximum allowed: m characters";
`extensionNotAllowed`: "File extension not allowed. Allowed extensions: ...";
`mimeTypeNotAllowed`: "File type (t) not allowed. Allowed types: ...";
`contentMismatch detected declared`: "File content type (detected) does not
match declared type (declared). This may indicate a malicious file.";
`suspiciousFilename`: "Suspicious filename detected";
`executableNotAllowed`: "Executable files are not allowed";
`validationFailed msg`: "File validation failed: msg" (the catch branch). -/
inductive FileError where
  | sizeExceeded (size maxSize : Nat)
  | filenameTooLong (len maxLen : Nat)
  | extensionNotAllowed (allowed : List (List Char))
  | mimeTypeNotAllowed (declared : String) (allowed : List String)
  | contentMismatch (detected declared : String)
  | suspiciousFilename
  | executableNotAllowed
  | validationFailed (msg : String)
deriving DecidableEq, Repr

/-- Return value of `validateFile`: `{ isValid, error?, detectedType? }`. -/
structure ValidationResult where
  isValid : Bool
  error : Option FileError
  detectedType : Option String
deriving DecidableEq, Repr

/-- Model of JavaScript `String.prototype.includes`: the pattern occurs as
a contiguous subsequence, i.e. as a prefix of some tail. -/
def strIncludes (l pattern : List Char) : Bool :=
  l.tails.any (fun t => pattern.isPrefixOf t)

/-- Step 7 check: `file.name.toLowerCase().includes('virus') || ...includes('malware')`. -/
def suspiciousName (name : List Char) : Bool :=
  strIncludes (name.map Char.toLower) "virus".toList
    || strIncludes (name.map Char.toLower) "malware".toList

/-- Step 8 check: `buffer.slice(0, 4)` then `firstBytes[0] === 0x4D &&
firstBytes[1] === 0x5A`; on a buffer shorter than 2 the indexing gives
`undefined` and the comparison fails. -/
def isMZHeader : List Nat → Bool
  | b0 :: b1 :: _ => b0 == 0x4D && b1 == 0x5A
  | _ => false

/-- Model of JavaScript `detectedType || file.type` (the empty string is
falsy). -/
def jsOrType (detected : Option String) (declared : String) : String :=
  match detected with
  | some s => if s = "" then declared else s
  | none => declared

/-- Steps 7 and 8 of `validateFile` followed by the success return. -/
def finalChecks (file : JsFile) (buffer : List Nat) (detected : Option String) :
    ValidationResult :=
  if suspiciousName file.name then
    ⟨false, some .suspiciousFilename, none⟩
  else if isMZHeader buffer then
    ⟨false, some .executableNotAllowed, some "application/x-executable"⟩
  else
    ⟨true, none, some (jsOrType detected file.type)⟩

/-- Function `validateFile(file, config)`: size, filename length,
extension, declared MIME type, content sniffing, suspicious name,
executable header — short-circuiting in that order; the whole body is
wrapped in try/catch, so a failing `arrayBuffer()` read becomes the
`validationFailed` result. -/
def validateFile (file : JsFile) (config : FileValidationConfig) : ValidationResult :=
  if file.size > config.maxSizeBytes then
    ⟨false, some (.sizeExceeded file.size config.maxSizeBytes), none⟩
  else if file.name.length > config.maxFilenameLength then
    ⟨false, some (.filenameTooLong file.name.length config.maxFilenameLength), none⟩
  else if !validateFileExtension file.name config.allowedExtensions then
    ⟨false, some (.extensionNotAllowed config.allowedExtensions), none⟩
  else if file.type ∉ config.allowedMimeTypes then
    ⟨false, some (.mimeTypeNotAllowed file.type config.allowedMimeTypes), none⟩
  else
    match file.arrayBuffer with
    | Except.error msg => ⟨false, some (.validationFailed msg), none⟩
    | Except.ok buffer =>
        match detectFileTypeFromMagicBytes buffer with
        | some detected =>
            if detected ∉ config.allowedMimeTypes then
              ⟨false, some (.contentMismatch detected file.type), some detected⟩
            else finalChecks file buffer (some detected)
        | none => finalChecks file buffer none

/-- No magic-byte signature starts with byte `0x4D`, so a buffer with the
MZ executable header is never recognized by the sniffer. -/
theorem detect_mz_none (rest : List Nat) :
    detectFileTypeFromMagicBytes (0x4D :: 0x5A :: rest) = none := by
  simp [detectFileTypeFromMagicBytes, hasMagicBytes, MAGIC_BYTES_pdf, MAGIC_BYTES_jpeg,
    MAGIC_BYTES_png, MAGIC_BYTES_gif, MAGIC_BYTES_webp, MAGIC_BYTES_text,
    OFFICE_MAGIC_BYTES, List.isPrefixOf]

/-- C10: `validateFile` always yields a result whose `isValid` flag is
false exactly when an error is reported, and a failing content read
(exception in `arrayBuffer()`) is caught and converted into an invalid
result rather than propagated. -/
theorem validateFile_total_and_catches (file : JsFile) (config : FileValidationConfig) :
    ((validateFile file config).isValid = false ↔ ((validateFile file config).error).isSome)
    ∧ (∀ msg, file.arrayBuffer = Except.error msg →
        (validateFile file config).isValid = false
        ∧ ((validateFile file config).error).isSome) := by
  unfold validateFile finalChecks
  constructor
  · repeat' split
    all_goals simp
  · intro msg hmsg
    repeat' split
    all_goals simp_all

theorem validateFile_total_and_catches_witness :
    (validateFile ⟨5, "a.pdf".toList, "application/pdf", Except.error "boom"⟩
      STUDY_MATERIAL_VALIDATION).isValid = false :=
  ((validateFile_total_and_catches
    ⟨5, "a.pdf".toList, "application/pdf", Except.error "boom"⟩
    STUDY_MATERIAL_VALIDATION).2 "boom" rfl).1

/-- C2 (amended): a buffer starting with `4D 5A` is rejected with the
executable error provided the earlier checks (size, filename length,
extension, declared MIME type, suspicious name) all pass; when an earlier
check fails, its own error is reported instead. -/
theorem validateFile_mz_rejected_as_executable
    (file : JsFile) (config : FileValidationConfig) (rest : List Nat)
    (hbuf : file.arrayBuffer = Except.ok (0x4D :: 0x5A :: rest))
    (hsize : file.size ≤ config.maxSizeBytes)
    (hname : file.name.length ≤ config.maxFilenameLength)
    (hext : validateFileExtension file.name config.allowedExtensions = true)
    (hmime : file.type ∈ config.allowedMimeTypes)
    (hsus : suspiciousName file.name = false) :
    validateFile file config
      = ⟨false, some .executableNotAllowed, some "application/x-executable"⟩ := by
  simp [validateFile, finalChecks, hbuf, detect_mz_none, hsus, hext, hmime,
    Nat.not_lt.mpr hsize, Nat.not_lt.mpr hname, isMZHeader]

theorem validateFile_mz_rejected_as_executable_witness :
    validateFile ⟨2, "a.pdf".toList, "application/pdf", Except.ok [0x4D, 0x5A]⟩
      STUDY_MATERIAL_VALIDATION
      = ⟨false, some .executableNotAllowed, some "application/x-executable"⟩ :=
  validateFile_mz_rejected_as_executable
    ⟨2, "a.pdf".toList, "application/pdf", Except.ok [0x4D, 0x5A]⟩
    STUDY_MATERIAL_VALIDATION [] rfl (by decide) (by decide) (by decide)
    (by decide) (by decide)

/-- C2 counterexample: a file whose buffer starts with `4D 5A` but whose
declared extension and MIME type are not allowed fails with the
extension error, not the executable-detected error, so the claim's
"regardless of declared type and filename extension" is false. -/
theorem validateFile_mz_counterexample :
    (validateFile ⟨2, "a.exe".toList, "application/x-msdownload", Except.ok [0x4D, 0x5A]⟩
        STUDY_MATERIAL_VALIDATION).error
      = some (.extensionNotAllowed STUDY_MATERIAL_VALIDATION.allowedExtensions)
    ∧ (validateFile ⟨2, "a.exe".toList, "application/x-msdownload", Except.ok [0x4D, 0x5A]⟩
        STUDY_MATERIAL_VALIDATION).error ≠ some .executableNotAllowed := by
  constructor
  · decide
  · decide

/-- The 5-byte `%PDF\n` buffer of the spec's validator test cases. -/
def pdfBuffer : List Nat := [0x25, 0x50, 0x44, 0x46, 0x0A]

/-- A config allowing `image/png` but not `application/pdf`, with the
`.pdf` extension allowed: the only situation in which the spec's second
test case produces the mismatch error. -/
def imageOnlyConfig : FileValidationConfig :=
  ⟨100 * 1024 * 1024, ["image/png"], [".pdf".toList, ".png".toList], 255⟩

/-- C3 (amended): the `%PDF\n` buffer declared `application/pdf` passes
under the default config; declared `image/png` under the default config it
also passes (the detected type `application/pdf` is itself allowed — the
mismatch test compares the detected type against `allowedMimeTypes`, not
against the declared type); the mismatch error naming detected
`application/pdf` and declared `image/png` arises under a config that does
not allow `application/pdf`. -/
theorem validateFile_pdf_buffer_cases :
    validateFile ⟨5, "a.pdf".toList, "application/pdf", Except.ok pdfBuffer⟩
        STUDY_MATERIAL_VALIDATION
      = ⟨true, none, some "application/pdf"⟩
    ∧ validateFile ⟨5, "a.pdf".toList, "image/png", Except.ok pdfBuffer⟩
        imageOnlyConfig
      = ⟨false, some (.contentMismatch "application/pdf" "image/png"),
          some "application/pdf"⟩ := by
  constructor
  · decide
  · decide

/-- C3 counterexample: the `%PDF\n` buffer declared `image/png` under the
default config is ACCEPTED (the claim says it is rejected with a mismatch
error): the detected type `application/pdf` is in `allowedMimeTypes`, so
step 6 does not fire. -/
theorem validateFile_pdf_as_png_counterexample :
    validateFile ⟨5, "a.pdf".toList, "image/png", Except.ok pdfBuffer⟩
        STUDY_MATERIAL_VALIDATION
      = ⟨true, none, some "application/pdf"⟩ := by
  decide

/-! ## Filename sanitation (`sanitizeFilename` in fileValidation.ts) -/

/-- Model of `filename.replace(/\.\./g, '')`: remove non-overlapping
occurrences of `..` scanning left to right (a run of dots keeps its last
dot exactly when its length is odd). -/
def removeDotDot : List Char → List Char
  | [] => []
  | [c] => [c]
  | a :: b :: rest =>
      if a = '.' ∧ b = '.' then removeDotDot rest
      else a :: removeDotDot (b :: rest)

/-- Characters removed by `.replace(/[\/\\]/g, '')`. -/
def isPathSeparator (c : Char) : Bool := c == '/' || c == '\\'

/-- Characters replaced by `.replace(/[<>:"|?*]/g, '_')`. -/
def isDangerousChar (c : Char) : Bool :=
  c == '<' || c == '>' || c == ':' || c == '"' || c == '|' || c == '?' || c == '*'

/-- Replacement applied to one character by the dangerous-character step. -/
def replaceDangerous (c : Char) : Char := if isDangerousChar c then '_' else c

/-- First three steps of `sanitizeFilename`: remove `..`, remove path
separators, replace dangerous characters. -/
def cleanupChars (filename : List Char) : List Char :=
  ((removeDotDot filename).filter (fun c => !isPathSeparator c)).map replaceDangerous

/-- Model of `sanitized.split('.').pop()`: the suffix after the last dot;
the whole string when it has no dot. -/
def afterLastDot : List Char → List Char
  | [] => []
  | c :: rest =>
      if '.' ∈ rest then afterLastDot rest
      else if c = '.' then rest
      else c :: rest

/-- Model of `sanitized.substring(0, sanitized.lastIndexOf('.'))`: the
prefix before the last dot; empty when there is no dot (`lastIndexOf`
yields -1, which `substring` clamps to 0). -/
def beforeLastDot : List Char → List Char
  | [] => []
  | c :: rest => if '.' ∈ rest then c :: beforeLastDot rest else []

/-- Truncation branch of `sanitizeFilename`:
`name.substring(0, 255 - ext.length - 1) + '.' + ext`.  JavaScript
`substring` clamps a negative end index to 0, exactly as truncated `Nat`
subtraction does. -/
def jsTruncate (sanitized : List Char) : List Char :=
  let ext := afterLastDot sanitized
  let nm := beforeLastDot sanitized
  nm.take (255 - ext.length - 1) ++ '.' :: ext

/-- Fallback name substituted for an empty or `"."` result. -/
def uploadedFallback : List Char := "uploaded_file".toList

/-- Function `sanitizeFilename(filename)` from fileValidation.ts. -/
def sanitizeFilename (filename : List Char) : List Char :=
  let sanitized := cleanupChars filename
  let sanitized := if sanitized.length > 255 then jsTruncate sanitized else sanitized
  if sanitized = [] ∨ sanitized = ['.'] then uploadedFallback else sanitized

/-- Absence of adjacent dots. -/
def NoTwoDots (l : List Char) : Prop := l.Chain' (fun a b => ¬(a = '.' ∧ b = '.'))

theorem removeDotDot_cons_ne (b : Char) (rest : List Char) (h : b ≠ '.') :
    removeDotDot (b :: rest) = b :: removeDotDot rest := by
  cases rest with
  | nil => rfl
  | cons c r => simp [removeDotDot, h]

theorem noTwoDots_removeDotDot (l : List Char) : NoTwoDots (removeDotDot l) := by
  induction l using removeDotDot.induct with
  | case1 => simp [removeDotDot, NoTwoDots]
  | case2 c => simp [removeDotDot, NoTwoDots]
  | case3 a b rest hab ih =>
      rw [removeDotDot, if_pos hab]
      exact ih
  | case4 a b rest hab ih =>
      rw [removeDotDot, if_neg hab]
      rw [NoTwoDots, List.chain'_cons']
      refine ⟨?_, ih⟩
      intro y hy hcontra
      obtain ⟨ha, hydot⟩ := hcontra
      subst ha
      have hb : b ≠ '.' := fun hb => hab ⟨rfl, hb⟩
      rw [removeDotDot_cons_ne b rest hb] at hy
      simp only [List.head?_cons, Option.mem_def, Option.some_inj] at hy
      exact hb (hy ▸ hydot)

theorem removeDotDot_eq_self (l : List Char) (h : NoTwoDots l) : removeDotDot l = l := by
  induction l using removeDotDot.induct with
  | case1 => rfl
  | case2 c => rfl
  | case3 a b rest hab ih =>
      exact absurd hab (List.chain'_cons.mp h).1
  | case4 a b rest hab ih =>
      rw [removeDotDot, if_neg hab, ih (List.chain'_cons.mp h).2]

theorem removeDotDot_sublist (l : List Char) : List.Sublist (removeDotDot l) l := by
  induction l using removeDotDot.induct with
  | case1 => simp [removeDotDot]
  | case2 c => simp [removeDotDot]
  | case3 a b rest hab ih =>
      rw [removeDotDot, if_pos hab]
      exact ih.trans ((List.sublist_cons_self _ _).trans (List.sublist_cons_self _ _))
  | case4 a b rest hab ih =>
      rw [removeDotDot, if_neg hab]
      exact ih.cons₂ a

theorem replaceDangerous_eq_dot (c : Char) : replaceDangerous c = '.' ↔ c = '.' := by
  unfold replaceDangerous
  by_cases h : isDangerousChar c = true
  · rw [if_pos h]
    constructor
    · intro hh; exact absurd hh (by decide)
    · intro hh; subst hh; exact absurd h (by decide)
  · rw [if_neg h]

theorem replaceDangerous_idem (c : Char) :
    replaceDangerous (replaceDangerous c) = replaceDangerous c := by
  unfold replaceDangerous
  by_cases h : isDangerousChar c = true
  · simp [h]
  · simp [h]

/-- C4 (amended): `sanitizeFilename` is idempotent on inputs of length at
most 255 containing no path separator; removing separators can merge two
single dots into a new `..` (e.g. `"./."`), and truncation above 255
characters can splice a new `..` at the cut, which a second pass then
removes. -/
theorem sanitizeFilename_idempotent_of (l : List Char)
    (hlen : l.length ≤ 255)
    (hsep : ∀ c ∈ l, c ≠ '/' ∧ c ≠ '\\') :
    sanitizeFilename (sanitizeFilename l) = sanitizeFilename l := by
  have hsub := removeDotDot_sublist l
  have hfil : (removeDotDot l).filter (fun c => !isPathSeparator c) = removeDotDot l :=
    List.filter_eq_self.mpr (fun a ha => by
      obtain ⟨h1, h2⟩ := hsep a (hsub.subset ha)
      simp [isPathSeparator, h1, h2])
  set s := cleanupChars l with hs
  have hsdef : s = (removeDotDot l).map replaceDangerous := by
    rw [hs, cleanupChars, hfil]
  have hslen : s.length ≤ 255 := by
    rw [hsdef, List.length_map]
    exact hsub.length_le.trans hlen
  have hnd : NoTwoDots s := by
    rw [hsdef, NoTwoDots, List.chain'_map]
    refine (noTwoDots_removeDotDot l).imp ?_
    intro a b hab hcontra
    exact hab ⟨(replaceDangerous_eq_dot a).mp hcontra.1, (replaceDangerous_eq_dot b).mp hcontra.2⟩
  have hmapsep : ∀ c ∈ s, isPathSeparator c = false := by
    rw [hsdef]
    intro c hc
    obtain ⟨a, ha, rfl⟩ := List.mem_map.mp hc
    obtain ⟨h1, h2⟩ := hsep a (hsub.subset ha)
    unfold replaceDangerous
    by_cases hd : isDangerousChar a = true
    · simp [hd, isPathSeparator]
    · simp [hd, isPathSeparator, h1, h2]
  have hrepl : s.map replaceDangerous = s := by
    conv_lhs => rw [hsdef]
    rw [List.map_map, hsdef]
    exact List.map_congr_left (fun a _ => replaceDangerous_idem a)
  have hnotr : ¬ (s.length > 255) := by omega
  have h1 : sanitizeFilename l = if s = [] ∨ s = ['.'] then uploadedFallback else s := by
    simp only [sanitizeFilename, ← hs]
    rw [if_neg hnotr]
  by_cases hfb : s = [] ∨ s = ['.']
  · have h2 : sanitizeFilename l = uploadedFallback := by rw [h1, if_pos hfb]
    rw [h2]
    decide
  · have h2 : sanitizeFilename l = s := by rw [h1, if_neg hfb]
    rw [h2]
    have hcl : cleanupChars s = s := by
      rw [cleanupChars, removeDotDot_eq_self s hnd,
        List.filter_eq_self.mpr (fun a ha => by simp [hmapsep a ha]), hrepl]
    simp only [sanitizeFilename, hcl]
    rw [if_neg hnotr, if_neg hfb]

theorem sanitizeFilename_idempotent_of_witness :
    sanitizeFilename (sanitizeFilename "report.pdf".toList)
      = sanitizeFilename "report.pdf".toList :=
  sanitizeFilename_idempotent_of "report.pdf".toList (by decide) (by decide)

/-- C4 counterexample: on `"./."` one pass yields `".."` (removing the
separator merges the two dots), and a second pass removes that `..` and
falls back to `"uploaded_file"`, so `sanitize(sanitize(x)) ≠ sanitize(x)`. -/
theorem sanitizeFilename_not_idempotent :
    sanitizeFilename ['.', '/', '.'] = ['.', '.']
    ∧ sanitizeFilename (sanitizeFilename ['.', '/', '.']) = uploadedFallback
    ∧ sanitizeFilename (sanitizeFilename ['.', '/', '.']) ≠ sanitizeFilename ['.', '/', '.'] := by
  refine ⟨by decide, by decide, by decide⟩

theorem afterLastDot_no_dot (l : List Char) : '.' ∉ afterLastDot l := by
  induction l with
  | nil => simp [afterLastDot]
  | cons c rest ih =>
      by_cases hd : '.' ∈ rest
      · simpa [afterLastDot, hd] using ih
      · by_cases hc : c = '.'
        · simp only [afterLastDot, if_neg hd, if_pos hc]
          exact hd
        · simp only [afterLastDot, if_neg hd, if_neg hc, List.mem_cons]
          exact fun h => h.elim (fun h1 => hc h1.symm) hd

theorem afterLastDot_append (a b : List Char) (hb : '.' ∉ b) :
    afterLastDot (a ++ '.' :: b) = b := by
  induction a with
  | nil => simp [afterLastDot, hb]
  | cons x a' ih =>
      have hmem : '.' ∈ a' ++ '.' :: b :=
        List.mem_append.mpr (Or.inr (List.mem_cons_self _ _))
      simpa [afterLastDot, hmem] using ih

theorem before_after_decomp (l : List Char) (h : '.' ∈ l) :
    beforeLastDot l ++ '.' :: afterLastDot l = l := by
  induction l with
  | nil => cases h
  | cons c rest ih =>
      by_cases hd : '.' ∈ rest
      · simp [beforeLastDot, afterLastDot, hd, ih hd]
      · have hc : c = '.' := by
          rcases List.mem_cons.mp h with h1 | h1
          · exact h1.symm
          · exact absurd h1 hd
        simp [beforeLastDot, afterLastDot, hd, hc]

/-- C5 (amended): the sanitized result has length at most 255 whenever the
cleaned-up form either already fits in 255 characters or contains a dot
whose final extension is at most 254 characters long; in the truncation
case the extension (suffix after the last dot) is preserved unchanged.
(Without a dot, or with an extension of 255 or more characters, the
truncation branch produces `"." + ext` and can exceed 255.) -/
theorem sanitizeFilename_length_bound (l : List Char)
    (h : (cleanupChars l).length ≤ 255
       ∨ ('.' ∈ cleanupChars l ∧ (afterLastDot (cleanupChars l)).length ≤ 254)) :
    (sanitizeFilename l).length ≤ 255
    ∧ (255 < (cleanupChars l).length →
        afterLastDot (sanitizeFilename l) = afterLastDot (cleanupChars l)) := by
  set s := cleanupChars l with hs
  by_cases hlen : s.length ≤ 255
  · have h1 : sanitizeFilename l = if s = [] ∨ s = ['.'] then uploadedFallback else s := by
      simp only [sanitizeFilename, ← hs]
      rw [if_neg (show ¬ (s.length > 255) by omega)]
    constructor
    · rw [h1]
      split
      · decide
      · exact hlen
    · intro hgt
      exact absurd hgt (by omega)
  · obtain ⟨hdot, hext⟩ := h.resolve_left hlen
    have hnotdot : '.' ∉ afterLastDot s := afterLastDot_no_dot s
    have hdecomp := before_after_decomp s hdot
    have hlens : 255 < s.length := by omega
    have hblen : (beforeLastDot s).length + 1 + (afterLastDot s).length = s.length := by
      have hlc := congrArg List.length hdecomp
      simp only [List.length_append, List.length_cons] at hlc
      omega
    have htr : jsTruncate s
        = (beforeLastDot s).take (255 - (afterLastDot s).length - 1)
            ++ '.' :: afterLastDot s := rfl
    have htake : ((beforeLastDot s).take (255 - (afterLastDot s).length - 1)).length
        = min (255 - (afterLastDot s).length - 1) (beforeLastDot s).length :=
      List.length_take _ _
    have htrlen : (jsTruncate s).length ≤ 255 := by
      rw [htr]
      simp only [List.length_append, List.length_cons, htake]
      omega
    have htrne : jsTruncate s ≠ [] := by
      rw [htr]
      intro hemp
      exact absurd (List.append_eq_nil.mp hemp).2 (by simp)
    have htrnedot : jsTruncate s ≠ ['.'] := by
      rw [htr]
      intro heq
      have hx : (beforeLastDot s).take (255 - (afterLastDot s).length - 1) = []
          ∧ afterLastDot s = [] := by
        cases hh : (beforeLastDot s).take (255 - (afterLastDot s).length - 1) with
        | nil =>
            rw [hh] at heq
            simp only [List.nil_append, List.cons.injEq] at heq
            exact ⟨rfl, heq.2⟩
        | cons y ys =>
            rw [hh] at heq
            simp only [List.cons_append, List.cons.injEq] at heq
            exact absurd heq.2 (by simp)
      obtain ⟨hx1, hx2⟩ := hx
      have hal : (afterLastDot s).length = 0 := by rw [hx2]; rfl
      rcases List.take_eq_nil_iff.mp hx1 with hK | hbl
      · omega
      · have hbl0 : (beforeLastDot s).length = 0 := by rw [hbl]; rfl
        omega
    have h2 : sanitizeFilename l = jsTruncate s := by
      simp only [sanitizeFilename, ← hs]
      rw [if_pos (show s.length > 255 by omega), if_neg (not_or.mpr ⟨htrne, htrnedot⟩)]
    refine ⟨by rw [h2]; exact htrlen, fun _ => ?_⟩
    rw [h2, htr, afterLastDot_append _ _ hnotdot]

theorem sanitizeFilename_length_bound_witness :
    (sanitizeFilename "a.pdf".toList).length ≤ 255 :=
  (sanitizeFilename_length_bound "a.pdf".toList (Or.inl (by decide))).1

set_option maxRecDepth 4000 in
/-- C5 counterexample: a 256-character name with no dot is "truncated" to
`"." ++ name` of length 257, because `split('.').pop()` returns the whole
string and `substring(0, lastIndexOf('.'))` returns the empty string, so
the result exceeds 255. -/
theorem sanitizeFilename_can_exceed_255 :
    255 < (sanitizeFilename (List.replicate 256 'a')).length := by decide

/-! ## Client identifier derivation (`getClientIdentifier` in part_015)

Header values and `req.ip` are modelled as `Option (List Char)` (`none`
for an absent header). -/

/-- Fields of the incoming `NextRequest` read by `getClientIdentifier`. -/
structure NextRequest where
  ip : Option (List Char)
  forwardedFor : Option (List Char)
  realIp : Option (List Char)
  cfConnectingIp : Option (List Char)
  userAgent : Option (List Char)
deriving Repr

/-- JavaScript falsiness of a header lookup: absent (`null`) or the empty
string. -/
def falsyStr : Option (List Char) → Bool
  | none => true
  | some s => decide (s = [])

/-- Model of JavaScript `a || b` on header values. -/
def jsOr (a b : Option (List Char)) : Option (List Char) :=
  if falsyStr a then b else a

/-- Model of `forwarded && forwarded.split(',')[0]`: when the header is
falsy its own (falsy) value, otherwise the text before the first comma;
`split(',')[0]` is the longest comma-free prefix. -/
def fwdFirst : Option (List Char) → Option (List Char)
  | none => none
  | some f => some (f.takeWhile (fun c => c ≠ ','))

/-- Model of the trailing `|| 'unknown'` of the candidate chain: the
value of a truthy candidate, `"unknown"` otherwise. -/
def ipValue : Option (List Char) → List Char
  | none => "unknown".toList
  | some s => if s = [] then "unknown".toList else s

/-- Function `getClientIdentifier(req)` from part_015:
`req.ip || (forwarded && forwarded.split(',')[0]) || realIp ||
cfConnectingIp || 'unknown'`, strip a leading `::ffff:`
(`replace(/^::ffff:/, '')`), then if the result is `'unknown'` or
`'127.0.0.1'` return `'ua:' + (userAgent || 'unknown').substring(0, 50)`,
else `'ip:' + ip`. -/
def getClientIdentifier (req : NextRequest) : List Char :=
  let ip0 := jsOr (jsOr (jsOr req.ip (fwdFirst req.forwardedFor)) req.realIp)
    req.cfConnectingIp
  let ip1 := ipValue ip0
  let ip2 := if "::ffff:".toList.isPrefixOf ip1 then ip1.drop 7 else ip1
  if ip2 = "unknown".toList ∨ ip2 = "127.0.0.1".toList then
    "ua:".toList ++ (ipValue req.userAgent).take 50
  else
    "ip:".toList ++ ip2

/-- First truthy value of a candidate list. -/
def firstTruthy : List (Option (List Char)) → Option (List Char)
  | [] => none
  | a :: rest => if falsyStr a then firstTruthy rest else a

/-- The amended derivation, written to the corrected claim's words: the
candidate IP is the first truthy value among `req.ip`, the first
comma-separated field of the forwarded header, the real-IP header and the
CDN header (an empty value counting as absent); after stripping a leading
`::ffff:`, a missing candidate or the loopback/unknown value falls back to
the `'ua:'`-prefixed 50-character user-agent, anything else becomes the
`'ip:'`-prefixed address. -/
def clientIdentifierSpec (req : NextRequest) : List Char :=
  let candidate := firstTruthy
    [req.ip, fwdFirst req.forwardedFor, req.realIp, req.cfConnectingIp]
  let ip1 := ipValue candidate
  let ip2 := if "::ffff:".toList.isPrefixOf ip1 then ip1.drop 7 else ip1
  if ip2 = "unknown".toList ∨ ip2 = "127.0.0.1".toList then
    "ua:".toList ++ (ipValue req.userAgent).take 50
  else
    "ip:".toList ++ ip2

theorem ipValue_none : ipValue none = "unknown".toList := rfl

theorem ipValue_falsy (d : Option (List Char)) (h : falsyStr d = true) :
    ipValue d = "unknown".toList := by
  cases d with
  | none => rfl
  | some s =>
      have hs : s = [] := by simpa [falsyStr] using h
      simp [ipValue, hs]

/-- C6 (amended): `getClientIdentifier` agrees everywhere with the
first-truthy-candidate derivation `clientIdentifierSpec`. -/
theorem getClientIdentifier_characterization (req : NextRequest) :
    getClientIdentifier req = clientIdentifierSpec req := by
  unfold getClientIdentifier clientIdentifierSpec
  by_cases ha : falsyStr req.ip = true <;>
  by_cases hb : falsyStr (fwdFirst req.forwardedFor) = true <;>
  by_cases hc : falsyStr req.realIp = true <;>
  by_cases hd : falsyStr req.cfConnectingIp = true <;>
  simp +decide [jsOr, firstTruthy, ha, hb, hc, hd, ipValue_falsy, ipValue_none]

/-- C6 counterexample: with only the forwarded header present and equal to
`127.0.0.1`, the identifier is derived from the user-agent, not from the
forwarded header as the claim's priority order requires (the source also
consults `req.ip` before any header). -/
theorem getClientIdentifier_counterexample :
    getClientIdentifier
        ⟨none, some "127.0.0.1".toList, none, none, some "TestAgent".toList⟩
      = "ua:TestAgent".toList
    ∧ getClientIdentifier
        ⟨none, some "127.0.0.1".toList, none, none, some "TestAgent".toList⟩
      ≠ "ip:127.0.0.1".toList := by
  refine ⟨by decide, by decide⟩

theorem rateLimiter_identifiers_independent_witness :
    (isRateLimited ['b'] ⟨1, 1000, 2⟩ 5 (runCalls ['a'] ⟨1, 1000, 2⟩ [1, 2, 3] [])).1
      = (isRateLimited ['b'] ⟨1, 1000, 2⟩ 5 ([] : Cache)).1 :=
  rateLimiter_identifiers_independent ['a'] ['b'] (by decide) ⟨1, 1000, 2⟩ ⟨1, 1000, 2⟩
    [1, 2, 3] [] 5

end Lastbench
